import Mathlib

/-!
Verification of the reference-resolution and query layer of the bible-api
service.  The TypeScript sources are shallowly embedded: strings are lists
of characters, the SQLite tables are lists of rows, and every service or
route handler is a pure Lean function mirroring the control flow of the
corresponding TypeScript function.
-/

/-- Strings of the embedded program are lists of characters. -/
abbrev Str := List Char

/-- Coercion from Lean string literals to embedded strings. -/
def str (s : String) : Str := s.data

/-- ASCII lower-casing of one character, the embedding of JavaScript
`toLowerCase` (and of SQLite `LIKE` case folding) on the ASCII range. -/
def toLowerAscii (c : Char) : Char :=
  if 'A' ≤ c ∧ c ≤ 'Z' then Char.ofNat (c.toNat + 32) else c

/-- Lower-casing of a whole string, character by character. -/
def lower (s : Str) : Str := s.map toLowerAscii

/-- Whitespace test used by `trim` and by `parseInt` prefix skipping. -/
def isWs (c : Char) : Bool := c = ' ' ∨ c = '\t' ∨ c = '\n' ∨ c = '\r'

/-- Embedding of JavaScript `String.prototype.trim`: drop whitespace at
both ends. -/
def trim (s : Str) : Str := ((s.dropWhile isWs).reverse.dropWhile isWs).reverse

/-- Decimal digit test, the character class `\d` of the reference regex. -/
def isDigitC (c : Char) : Bool := '0' ≤ c ∧ c ≤ '9'

/-- The character class `[a-z0-9]` of the reference regex (the input has
already been lower-cased when it is tested). -/
def isLowerAlnum (c : Char) : Bool := ('a' ≤ c ∧ c ≤ 'z') ∨ ('0' ≤ c ∧ c ≤ '9')

/-- Numeric value of an all-digit string, the embedding of
`parseInt(s, 10)` on the digit strings accepted by the reference regex. -/
def digitsVal (s : Str) : Nat :=
  s.foldl (fun a c => a * 10 + (c.toNat - '0'.toNat)) 0

/-- Decimal rendering of a number, the embedding of JavaScript template
interpolation of a number value. -/
def natChars (n : Nat) : Str := (Nat.repr n).data

/-- Embedding of JavaScript `String.prototype.split` on a one-character
separator: `"".split(sep)` is `[""]` and separators at the ends produce
empty segments, exactly as in JavaScript. -/
def splitOnC (sep : Char) : Str → List Str
  | [] => [[]]
  | c :: cs =>
    if c = sep then [] :: splitOnC sep cs
    else
      match splitOnC sep cs with
      | [] => [[c]]
      | r :: rs => (c :: r) :: rs

/-- Book catalog entry as used by the reference parser and the routes
(`src/data/books.ts`): localized display names. -/
structure BookNames where
  en : Str
  fr : Str
deriving DecidableEq, Repr

/-- Book catalog entry (`BookData` of `src/data/books.ts`): canonical id,
1-66 canonical number, chapter count and localized names. -/
structure BookData where
  id : Str
  number : Nat
  chapters : Nat
  names : BookNames
deriving DecidableEq, Repr

/-- The catalog lookup `getBookByIdOrAlias` is passed as a parameter: the
catalog data file is a static table and the parser only ever consults it
through this single lookup function. -/
abbrev Catalog := Str → Option BookData

/-- Structured reference produced by the parser
(`ParsedReference` of `src/types/bible.ts`). -/
structure ParsedReference where
  book : Str
  chapter : Nat
  verseStart : Nat
  verseEnd : Option Nat
deriving DecidableEq, Repr

/-- Result of `parseReference` (`ParsedRefResult` of
`src/services/reference-parser.ts`): a success carries the structured
reference and the resolved catalog book, a failure carries the error
message. -/
inductive ParsedRefResult where
  | success (reference : ParsedReference) (book : BookData)
  | failure (error : Str)
deriving DecidableEq, Repr

/-- Match of the verse component `(\d+)(?:-(\d+))?` of the reference
regex: a verse number optionally followed by a dash and an end verse. -/
def parseVersePart (p : Str) : Option (Nat × Option Nat) :=
  match splitOnC '-' p with
  | [v] =>
    if !v.isEmpty && v.all isDigitC then some (digitsVal v, none) else none
  | [v, e] =>
    if !v.isEmpty && v.all isDigitC && !e.isEmpty && e.all isDigitC then
      some (digitsVal v, some (digitsVal e))
    else none
  | _ => none

/-- Match of the whole reference regex
`^([a-z0-9]+)\.(\d+)\.(\d+)(?:-(\d+))?$` against a normalized (lower-cased,
trimmed) string: since a dot can occur in none of the character classes,
the regex matches exactly when splitting on dots yields three segments of
the right shapes, and the captured groups are those segments. -/
def matchRef (s : Str) : Option (Str × Nat × Nat × Option Nat) :=
  match splitOnC '.' s with
  | [b, ch, vp] =>
    if !b.isEmpty && b.all isLowerAlnum && !ch.isEmpty && ch.all isDigitC then
      (parseVersePart vp).map (fun ve => (b, digitsVal ch, ve.1, ve.2))
    else none
  | _ => none

/-- Embedding of `parseReference` of `src/services/reference-parser.ts`:
normalize, match the regex, resolve the book, validate the chapter bound
and the verse range, in that order, with the source's error messages. -/
def parseReference (lookup : Catalog) (ref : Str) : ParsedRefResult :=
  match matchRef (trim (lower ref)) with
  | none =>
    .failure (str "Invalid reference format: \"" ++ ref ++
      str "\". Expected format: book.chapter.verse (e.g., gen.1.1 or jhn.3.16-17)")
  | some (bookId, chapter, verseStart, verseEnd) =>
    match lookup bookId with
    | none =>
      .failure (str "Unknown book: \"" ++ bookId ++
        str "\". Use standard abbreviations like gen, exo, mat, jhn, etc.")
    | some book =>
      if chapter < 1 ∨ book.chapters < chapter then
        .failure (str "Invalid chapter " ++ natChars chapter ++ str " for " ++
          book.names.en ++ str ". Valid range: 1-" ++ natChars book.chapters)
      else
        match verseEnd with
        | some e =>
          if e < verseStart then
            .failure (str "Invalid verse range: " ++ natChars verseStart ++
              str "-" ++ natChars e ++ str ". End verse must be >= start verse.")
          else .success ⟨book.id, chapter, verseStart, some e⟩ book
        | none => .success ⟨book.id, chapter, verseStart, none⟩ book

/-- Embedding of `formatReference` of `src/services/reference-parser.ts`.
The range suffix test `ref.verseEnd && ref.verseEnd !== ref.verseStart`
uses JavaScript truthiness, so a present end verse equal to zero behaves
like an absent one. -/
def formatReference (ref : ParsedReference) (book : BookData)
    (language : Str) : Str :=
  let bookName := if language = str "fr" then book.names.fr else book.names.en
  match ref.verseEnd with
  | some e =>
    if e ≠ 0 ∧ e ≠ ref.verseStart then
      bookName ++ str " " ++ natChars ref.chapter ++ str ":" ++
        natChars ref.verseStart ++ str "-" ++ natChars e
    else
      bookName ++ str " " ++ natChars ref.chapter ++ str ":" ++
        natChars ref.verseStart
  | none =>
    bookName ++ str " " ++ natChars ref.chapter ++ str ":" ++
      natChars ref.verseStart

/-- Embedding of `parseMultipleReferences`: split on commas, trim each
segment, parse each segment independently. -/
def parseMultipleReferences (lookup : Catalog) (refs : Str) :
    List ParsedRefResult :=
  ((splitOnC ',' refs).map trim).map (parseReference lookup)

/-- Failure test for a parse result. -/
def isFailure : ParsedRefResult → Bool
  | .failure _ => true
  | .success _ _ => false

/-- Error message of a parse result (empty for a success). -/
def errorOf : ParsedRefResult → Str
  | .failure e => e
  | .success _ _ => []

/-- Condition (1) of the parser's failure analysis: the normalized input
does not match the reference grammar. -/
def grammarFails (ref : Str) : Bool := (matchRef (trim (lower ref))).isNone

/-- Condition (2): the grammar matches but the book token resolves to no
catalog book. -/
def unknownBook (lookup : Catalog) (ref : Str) : Bool :=
  match matchRef (trim (lower ref)) with
  | some (b, _, _, _) => (lookup b).isNone
  | none => false

/-- Condition (3): the book resolves but the chapter is out of the book's
chapter range. -/
def chapterOutOfRange (lookup : Catalog) (ref : Str) : Bool :=
  match matchRef (trim (lower ref)) with
  | some (b, c, _, _) =>
    match lookup b with
    | some bk => decide (c < 1) || decide (bk.chapters < c)
    | none => false
  | none => false

/-- Condition (4): a verse range is given with the end verse below the
start verse. -/
def badVerseRange (ref : Str) : Bool :=
  match matchRef (trim (lower ref)) with
  | some (_, _, v, some e) => decide (e < v)
  | _ => false


/-- Row of the `verses` table (`src/services/database.ts`), in table
(insertion) order inside a store list. -/
structure VerseRow where
  translation_id : Str
  book : Nat
  chapter : Nat
  verse : Nat
  text : Str
deriving DecidableEq, Repr

/-- Row of the `translations` table (`src/services/database.ts`). -/
structure TranslationRow where
  id : Str
  name : Str
  language : Str
  status : Str
  filename : Str
deriving DecidableEq, Repr

/-- Semantics of the SQLite `LIKE` operator with no `ESCAPE` clause:
`%` matches any sequence, `_` matches exactly one character, and every
other pattern character matches case-insensitively (SQLite folds ASCII
case in `LIKE` by default).  Matching a `%` tries every suffix of the
text, which keeps the recursion structural in the pattern. -/
def likeMatch : Str → Str → Bool
  | [], t => t.isEmpty
  | p :: ps, t =>
    if p = '%' then t.tails.any (fun s => likeMatch ps s)
    else
      match t with
      | [] => false
      | c :: t' =>
        (if p = '_' then true else toLowerAscii p == toLowerAscii c) &&
          likeMatch ps t'

/-- Case-insensitive literal substring occurrence: the lower-cased needle
occurs somewhere in the lower-cased haystack. -/
def occursCI (q t : Str) : Bool :=
  (lower t).tails.any (fun s => (lower q).isPrefixOf s)

/-- A string free of the two `LIKE` wildcard characters. -/
def noWildcards (s : Str) : Bool := s.all (fun c => c ≠ '%' ∧ c ≠ '_')

/-- The row predicate of both SQL statements of `searchVerses`
(`src/services/database.ts`): `translation_id = ? AND text LIKE ?` with
pattern `'%' ++ trimmed ++ '%'`. -/
def searchMatch (translationId trimmed : Str) (r : VerseRow) : Bool :=
  r.translation_id == translationId &&
    likeMatch ('%' :: (trimmed ++ ['%'])) r.text

/-- Embedding of `searchVerses` of `src/services/database.ts`: an empty or
whitespace-only query short-circuits to an empty page with total 0;
otherwise the page is the match list after `OFFSET`/`LIMIT` and the total
is a separate count over the same predicate. -/
def searchVerses (store : List VerseRow) (translationId query : Str)
    (limit offset : Nat) : List VerseRow × Nat :=
  let trimmed := trim query
  if trimmed.isEmpty then ([], 0)
  else
    let found := store.filter (searchMatch translationId trimmed)
    ((found.drop offset).take limit, found.length)


/-- The character set escaped by `escapeRegex` of `src/routes/search.ts`:
the regex metacharacters `[.*+?^$\x7b\x7d()|[\]\\]`. -/
def isRegexMeta (c : Char) : Bool :=
  c = '.' ∨ c = '*' ∨ c = '+' ∨ c = '?' ∨ c = '^' ∨ c = '$' ∨ c = '\x7b' ∨
    c = '\x7d' ∨ c = '(' ∨ c = ')' ∨ c = '|' ∨ c = '[' ∨ c = ']' ∨ c = '\\'

/-- Embedding of `escapeRegex`: insert a backslash before every regex
metacharacter (`str.replace(/[.*+?^$\x7b\x7d()|[\]\\]/g, "\\$&")`). -/
def escapeRegex (s : Str) : Str :=
  s.foldr (fun c acc => if isRegexMeta c then '\\' :: c :: acc else c :: acc) []

/-- Decoder of regex pattern strings that denote a plain literal: a
backslash followed by a metacharacter denotes that character, a
non-metacharacter denotes itself, and any unescaped metacharacter (or any
other escape, which denotes a character class rather than a literal)
means the pattern is not a literal.  `regexLiteral? p = some l` says the
regex `p` matches exactly the literal string `l`. -/
def regexLiteral? : Str → Option Str
  | [] => some []
  | c :: rest =>
    if c = '\\' then
      match rest with
      | [] => none
      | d :: rest' =>
        if isRegexMeta d then (regexLiteral? rest').map (fun l => d :: l)
        else none
    else if isRegexMeta c then none
    else (regexLiteral? rest).map (fun l => c :: l)

/-- Case-insensitive prefix test (the anchored step of the `gi` regex
scan over a literal pattern). -/
def ciStartsWith (q t : Str) : Bool := (lower q).isPrefixOf (lower t)

/-- Fuelled scan of JavaScript `text.replace(regex, ...)` with a global
case-insensitive literal regex: walk the text left to right, and at each
position either emit the leftmost match as a matched chunk and continue
after it, or emit one character as an unmatched chunk.  The fuel is the
text length (one unit is spent per character consumed), which keeps the
definition structurally recursive and kernel-computable. -/
def hlChunksF (qc : Char) (qr : Str) : Nat → Str → List (Bool × Str)
  | _, [] => []
  | 0, _ :: _ => []
  | fuel + 1, c :: t' =>
    if ciStartsWith (qc :: qr) (c :: t') then
      (true, (c :: t').take (qr.length + 1)) ::
        hlChunksF qc qr fuel ((c :: t').drop (qr.length + 1))
    else (false, [c]) :: hlChunksF qc qr fuel t'

/-- Chunk decomposition of a text under the global case-insensitive scan
for a non-empty literal query `qc :: qr`. -/
def hlChunks (qc : Char) (qr : Str) (t : Str) : List (Bool × Str) :=
  hlChunksF qc qr t.length t

/-- Rendering of the chunk decomposition: matched chunks are wrapped in
`<em>...</em>` (the `"<em>$1</em>"` replacement), unmatched chunks are
copied. -/
def renderChunks : List (Bool × Str) → Str
  | [] => []
  | (true, s) :: rest => str "<em>" ++ s ++ str "</em>" ++ renderChunks rest
  | (false, s) :: rest => s ++ renderChunks rest

/-- Embedding of `highlightMatches` of `src/routes/search.ts`: build the
pattern `(escapeRegex query)` and replace every match, case-insensitively
and globally, by the match wrapped in `<em>...</em>`.  The escaped pattern
is always a literal (see `regexLiteral_escapeRegex`), so matching is the
literal scan; an empty query makes the regex match the empty string at
every position, which in JavaScript inserts an empty `<em></em>` pair at
every position; the `none` branch of the decoder is unreachable. -/
def highlightMatches (text query : Str) : Str :=
  match regexLiteral? (escapeRegex query) with
  | some [] => text.foldr (fun c acc => str "<em></em>" ++ c :: acc) (str "<em></em>")
  | some (qc :: qr) => renderChunks (hlChunks qc qr text)
  | none => text


/-- Translation metadata handed to the routes (`TranslationMeta` of
`src/schemas/bible.ts`). -/
structure TranslationMeta where
  id : Str
  name : Str
  language : Str
  status : Str
  filename : Str
deriving DecidableEq, Repr

/-- Embedding of `rowToMeta` of `src/services/bible-loader.ts`: an empty
(NULL) status falls back to "Unknown" and an empty filename to "", via
JavaScript `||`. -/
def rowToMeta (row : TranslationRow) : TranslationMeta :=
  { id := row.id, name := row.name, language := row.language,
    status := if row.status.isEmpty then str "Unknown" else row.status,
    filename := row.filename }

/-- Language display metadata (an entry of the `LANGUAGES` table of
`src/data/books.ts`). -/
structure LangInfo where
  name : Str
  nativeName : Str
deriving DecidableEq, Repr

/-- The persistent store and the static tables the handlers read:
the `translations` and `verses` tables in table order, plus the two
catalog indexes of `src/data/books.ts` (language display names and the
lookup by book number), which are static data the handlers only consult
pointwise. -/
structure Env where
  translations : List TranslationRow
  verses : List VerseRow
  langNames : Str → Option LangInfo
  byNumber : Nat → Option BookData

/-- Modelled from the spec: `DEFAULT_LANGUAGE` of `src/data/books.ts`
(the data file is not in the provided sources); the spec fixes the
default language to `en`. -/
def DEFAULT_LANGUAGE : Str := str "en"

/-- Embedding of the SQL statement `SELECT ... FROM translations WHERE
id = ?` (`getTranslationById` of `src/services/database.ts`): first row
whose primary key matches. -/
def getTranslationById (env : Env) (id : Str) : Option TranslationRow :=
  env.translations.find? (fun r => r.id == id)

/-- Embedding of `getTranslationMeta` of `src/services/bible-loader.ts`. -/
def getTranslationMeta (env : Env) (id : Str) : Option TranslationMeta :=
  (getTranslationById env id).map rowToMeta

/-- Byte-order (code point) comparison of strings, the `BINARY` collation
SQLite applies in `ORDER BY name`. -/
def leStr : Str → Str → Bool
  | [], _ => true
  | _ :: _, [] => false
  | a :: as, b :: bs => if a < b then true else if b < a then false else leStr as bs

/-- Name order on translation rows, the sort key of `ORDER BY name`. -/
def nameLe (a b : TranslationRow) : Prop := leStr a.name b.name = true

instance : DecidableRel nameLe := fun a b => by
  unfold nameLe; infer_instance

/-- Embedding of the SQL statement `SELECT ... FROM translations WHERE
language = ? ORDER BY name` (`getTranslationsByLanguage` of
`src/services/database.ts`): the language's rows in name-sorted order. -/
def getTranslationsByLanguage (env : Env) (language : Str) :
    List TranslationRow :=
  List.insertionSort nameLe (env.translations.filter (fun r => r.language == language))

/-- The curated per-language default translation ids of
`getDefaultTranslation` (`src/services/bible-loader.ts`):
`en -> en-kjv`, `fr -> fr-lsg` (the `defaults` record lookup). -/
def curatedDefault (language : Str) : Option Str :=
  if language = str "en" then some (str "en-kjv")
  else if language = str "fr" then some (str "fr-lsg")
  else none

/-- Embedding of `getDefaultTranslation` of `src/services/bible-loader.ts`
over the store-backed `getTranslationsByLanguage`: no translations means
no result; otherwise prefer the curated default id when it is present
among the language's translations, else the first translation in the
store's name-sorted order. -/
def getDefaultTranslation (env : Env) (language : Str) :
    Option TranslationMeta :=
  let translations := getTranslationsByLanguage env language
  if translations.isEmpty then none
  else
    match curatedDefault language with
    | some defaultId =>
      match translations.find? (fun t => t.id == defaultId) with
      | some found => some (rowToMeta found)
      | none => translations.head?.map rowToMeta
    | none => translations.head?.map rowToMeta

/-- Verse value handed to the routes (`Verse` of `src/schemas/bible.ts`). -/
structure Verse where
  number : Nat
  text : Str
deriving DecidableEq, Repr

/-- Embedding of `getVerseFromDb` (`src/services/bible-loader.ts`) over
the SQL statement `SELECT verse, text FROM verses WHERE translation_id = ?
AND book = ? AND chapter = ? AND verse = ?`. -/
def getVerseFromDb (env : Env) (translationId : Str) (book chapter verse : Nat) :
    Option Verse :=
  (env.verses.find? (fun r =>
    r.translation_id == translationId && r.book == book &&
      r.chapter == chapter && r.verse == verse)).map
    (fun r => ⟨r.verse, r.text⟩)

/-- JavaScript truthiness of an optional string parameter: absent and
empty are both falsy. -/
def truthy : Option Str → Bool
  | none => false
  | some s => !s.isEmpty

/-- The translation-resolution step shared by the verses and search
handlers: `translationId ? getTranslationMeta(translationId) :
getDefaultTranslation(language)`. -/
def resolveTranslation (env : Env) (translationParam : Option Str)
    (language : Str) : Option TranslationMeta :=
  match translationParam with
  | some tid =>
    if tid.isEmpty then getDefaultTranslation env language
    else getTranslationMeta env tid
  | none => getDefaultTranslation env language

/-- One entry of the batch-verses response body
(`src/routes/verses.ts`, GET `/verses` handler). -/
structure VerseEntry where
  reference : Str
  book : Str
  chapter : Nat
  verse : Nat
  text : Str
deriving DecidableEq, Repr

/-- Response body of the batch-verses route. -/
structure MultiVersesBody where
  translation : Str
  language : Str
  verses : List VerseEntry
deriving DecidableEq, Repr

/-- Outcome of the batch-verses handler: a 200 body or an HTTP error with
status, code and message. -/
inductive MultiResult where
  | ok (body : MultiVersesBody)
  | err (status : Nat) (code msg : Str)
deriving DecidableEq, Repr

/-- The per-reference body of the batch loop: look the verse up and, when
it exists, build the response entry (formatted reference, localized book
name, chapter, verse number, text). -/
def entryOfParsed (env : Env) (translationId language : Str)
    (r : ParsedReference) (b : BookData) : Option VerseEntry :=
  (getVerseFromDb env translationId b.number r.chapter r.verseStart).map
    (fun v =>
      { reference := formatReference r b language
        book := if language = str "fr" then b.names.fr else b.names.en
        chapter := r.chapter
        verse := v.number
        text := v.text })

/-- The loop of the batch-verses handler: the first parse failure aborts
the whole batch with its error; a parsed reference whose verse is absent
from the store is skipped; the rest accumulate in input order. -/
def collectVerses (env : Env) (translationId language : Str) :
    List ParsedRefResult → Except Str (List VerseEntry)
  | [] => .ok []
  | .failure e :: _ => .error e
  | .success r b :: rest =>
    match collectVerses env translationId language rest with
    | .error e => .error e
    | .ok entries =>
      match entryOfParsed env translationId language r b with
      | some entry => .ok (entry :: entries)
      | none => .ok entries

/-- Embedding of the GET `/verses` (batch) handler of
`src/routes/verses.ts`: resolve the translation (404 when it cannot be
resolved), parse all references, fail the whole batch with 400
`INVALID_REFERENCE` on the first parse error, and otherwise return the
entries of the verses found. -/
def getMultipleVerses (env : Env) (lookup : Catalog) (refs : Str)
    (langParam translationParam : Option Str) : MultiResult :=
  let language := langParam.getD DEFAULT_LANGUAGE
  match resolveTranslation env translationParam language with
  | none =>
    .err 404 (str "TRANSLATION_NOT_FOUND")
      (str "Translation '" ++ translationParam.getD language ++ str "' not found")
  | some translation =>
    match collectVerses env translation.id language
        (parseMultipleReferences lookup refs) with
    | .error e => .err 400 (str "INVALID_REFERENCE") e
    | .ok entries => .ok ⟨translation.id, language, entries⟩

/-- One entry of the comparison response
(`src/routes/verses.ts`, GET `/verses/:ref/compare` handler). -/
structure CompareEntry where
  language : Str
  languageName : Str
  translation : Str
  translationName : Str
  bookName : Str
  text : Str
deriving DecidableEq, Repr

/-- Response body of the comparison route. -/
structure CompareBody where
  reference : Str
  bookId : Str
  chapter : Nat
  verse : Nat
  comparisons : List CompareEntry
deriving DecidableEq, Repr

/-- Outcome of the comparison handler. -/
inductive CompareResult where
  | ok (body : CompareBody)
  | err (status : Nat) (code msg : Str)
deriving DecidableEq, Repr

/-- One iteration of the `translations=` branch of the comparison
handler: resolve the requested translation id and the verse; either
failing skips the entry (`continue`). -/
def compareByTranslation (env : Env) (p : ParsedReference) (b : BookData)
    (transId : Str) : Option CompareEntry :=
  match getTranslationMeta env transId with
  | none => none
  | some translation =>
    match getVerseFromDb env transId b.number p.chapter p.verseStart with
    | none => none
    | some v =>
      let lang := translation.language
      let langInfo := (env.langNames lang).getD ⟨lang, lang⟩
      some { language := lang
             languageName := langInfo.name
             translation := translation.id
             translationName := translation.name
             bookName := if lang = str "fr" then b.names.fr else b.names.en
             text := v.text }

/-- One iteration of the `languages=` branch of the comparison handler:
resolve the language's default translation and the verse; either failing
skips the entry. -/
def compareByLanguage (env : Env) (p : ParsedReference) (b : BookData)
    (lang : Str) : Option CompareEntry :=
  match getDefaultTranslation env lang with
  | none => none
  | some translation =>
    match getVerseFromDb env translation.id b.number p.chapter p.verseStart with
    | none => none
    | some v =>
      let langInfo := (env.langNames lang).getD ⟨lang, lang⟩
      some { language := lang
             languageName := langInfo.name
             translation := translation.id
             translationName := translation.name
             bookName := if lang = str "fr" then b.names.fr else b.names.en
             text := v.text }

/-- Embedding of the GET `/verses/:ref/compare` handler of
`src/routes/verses.ts`: 400 on a bad reference; then the `translations=`
branch, the `languages=` branch, or 400 `MISSING_PARAMETER` when neither
parameter is truthy; each requested id resolves independently and
unresolvable entries are skipped. -/
def compareVerse (env : Env) (lookup : Catalog) (ref : Str)
    (translationsParam languagesParam : Option Str) : CompareResult :=
  match parseReference lookup ref with
  | .failure e => .err 400 (str "INVALID_REFERENCE") e
  | .success p b =>
    if truthy translationsParam then
      .ok ⟨formatReference p b (str "en"), b.id, p.chapter, p.verseStart,
        ((splitOnC ',' (translationsParam.getD [])).map trim).filterMap
          (compareByTranslation env p b)⟩
    else if truthy languagesParam then
      .ok ⟨formatReference p b (str "en"), b.id, p.chapter, p.verseStart,
        ((splitOnC ',' (languagesParam.getD [])).map trim).filterMap
          (compareByLanguage env p b)⟩
    else
      .err 400 (str "MISSING_PARAMETER")
        (str "Either translations or languages query parameter is required")

/-- Longest decimal digit prefix of a string, if any. -/
def digitsPfxVal : Str → Option Nat
  | s =>
    let ds := s.takeWhile isDigitC
    if ds.isEmpty then none else some (digitsVal ds)

/-- Embedding of JavaScript `parseInt(s, 10)`: skip leading whitespace,
read an optional sign and then the longest digit prefix; `none` models
`NaN` (no digits at all). -/
def jsParseInt (s : Str) : Option Int :=
  match s.dropWhile isWs with
  | '-' :: rest => (digitsPfxVal rest).map (fun n => -(n : Int))
  | '+' :: rest => (digitsPfxVal rest).map (fun n => (n : Int))
  | rest => (digitsPfxVal rest).map (fun n => (n : Int))

/-- The limit computation of the GET `/search` handler
(`src/routes/search.ts`): `Math.min(limitStr ? parseInt(limitStr, 10) :
10, 100)`; `none` models `NaN`. -/
def searchLimit (limitStr : Option Str) : Option Int :=
  match limitStr with
  | none => some 10
  | some s =>
    if s.isEmpty then some 10
    else (jsParseInt s).map (fun n => min n 100)

/-- The offset computation of the GET `/search` handler:
`offsetStr ? parseInt(offsetStr, 10) : 0`. -/
def searchOffset (offsetStr : Option Str) : Option Int :=
  match offsetStr with
  | none => some 0
  | some s => if s.isEmpty then some 0 else jsParseInt s

/-- One entry of the search response body. -/
structure SearchResultItem where
  reference : Str
  text : Str
  highlight : Str
deriving DecidableEq, Repr

/-- Response body of the search route. -/
structure SearchBody where
  query : Str
  translation : Str
  language : Str
  total : Nat
  limit : Int
  offset : Int
  results : List SearchResultItem
deriving DecidableEq, Repr

/-- Outcome of the search handler. -/
inductive SearchOutcome where
  | ok (body : SearchBody)
  | err (status : Nat) (code msg : Str)
deriving DecidableEq, Repr

/-- Embedding of the GET `/search` handler of `src/routes/search.ts`:
compute limit and offset, resolve the translation (404 on failure), run
`searchVerses`, and map each row to a result with its reference, text and
highlight.  The value is `none` when limit or offset is `NaN` or
negative: those requests reach the storage engine with out-of-policy
binds whose semantics this model does not assign (the spec has the caller
validate both). -/
def searchRoute (env : Env) (query : Str)
    (langParam translationParam limitStr offsetStr : Option Str) :
    Option SearchOutcome :=
  let language := langParam.getD DEFAULT_LANGUAGE
  match searchLimit limitStr, searchOffset offsetStr with
  | some limit, some offset =>
    if 0 ≤ limit ∧ 0 ≤ offset then
      match resolveTranslation env translationParam language with
      | none =>
        some (.err 404 (str "TRANSLATION_NOT_FOUND")
          (str "Translation '" ++ translationParam.getD language ++
            str "' not found"))
      | some translation =>
        let page := searchVerses env.verses translation.id query
          limit.toNat offset.toNat
        some (.ok
          { query := query
            translation := translation.id
            language := language
            total := page.2
            limit := limit
            offset := offset
            results := page.1.map (fun row =>
              { reference :=
                  (match env.byNumber row.book with
                   | some bd =>
                     if language = str "fr" then bd.names.fr else bd.names.en
                   | none => str "Book " ++ natChars row.book) ++
                    str " " ++ natChars row.chapter ++ str ":" ++
                    natChars row.verse
                text := row.text
                highlight := highlightMatches row.text query }) })
    else none
  | _, _ => none

/-- Modelled from the spec: a fragment of the book catalog of
`src/data/books.ts` (the data file is not among the provided sources).
The spec fixes what the instances below rely on: `gen` resolves (also via
its alias `genesis`) to the book named Genesis with at least one chapter,
and `jhn` resolves to John (book number 43 of the canonical order) whose
chapter 3 exists. -/
def genBook : BookData := ⟨str "gen", 1, 50, ⟨str "Genesis", str "Genese"⟩⟩

/-- Modelled from the spec: the catalog entry for John. -/
def jhnBook : BookData := ⟨str "jhn", 43, 21, ⟨str "John", str "Jean"⟩⟩

/-- Modelled from the spec: the catalog lookup restricted to the two
sample books, used only to instantiate the parameterized theorems. -/
def demoCatalog : Catalog := fun s =>
  if s = str "gen" ∨ s = str "genesis" then some genBook
  else if s = str "jhn" then some jhnBook
  else none

/-- A one-translation, one-verse store for instantiating the handler
theorems. -/
def demoEnv : Env :=
  { translations := [⟨str "en-kjv", str "King James Version", str "en",
      str "Complete", str "EnglishKJBible.xml"⟩]
    verses := [⟨str "en-kjv", 43, 3, 16,
      str "For God so loved the world"⟩]
    langNames := fun _ => none
    byNumber := fun n => if n = 43 then some jhnBook else none }

/-- A prefix of the left summand is a prefix of the append. -/
theorem pfx_append_of (a b rest : Str) (h : a <+: b) : a <+: b ++ rest :=
  h.trans (List.prefix_append b rest)

/-- An infix of the right summand is an infix of the append. -/
theorem ifx_append_left (a s t : Str) (h : a <:+: t) : a <:+: s ++ t := by
  obtain ⟨x, y, hxy⟩ := h
  exact ⟨s ++ x, y, by rw [← hxy]; simp⟩

/-- Claim C1: `parseReference` fails exactly when the normalized input
misses the grammar, or the book token resolves to no catalog book, or the
chapter is out of the book's range, or a verse range has its end below
its start; and each failure mode carries its message ("Invalid reference
format", "Unknown book", "Invalid chapter", "End verse must be >= start
verse"). -/
theorem parseReference_failure_iff (lookup : Catalog) (ref : Str) :
    (isFailure (parseReference lookup ref) =
      (grammarFails ref || unknownBook lookup ref ||
        chapterOutOfRange lookup ref || badVerseRange ref))
    ∧ (grammarFails ref = true →
        str "Invalid reference format" <+: errorOf (parseReference lookup ref))
    ∧ (unknownBook lookup ref = true →
        str "Unknown book" <+: errorOf (parseReference lookup ref))
    ∧ (chapterOutOfRange lookup ref = true →
        str "Invalid chapter" <+: errorOf (parseReference lookup ref))
    ∧ (chapterOutOfRange lookup ref = false → badVerseRange ref = true →
        unknownBook lookup ref = false →
        str "End verse must be >= start verse" <:+:
          errorOf (parseReference lookup ref)) := by
  cases hm : matchRef (trim (lower ref)) with
  | none =>
    have hg : grammarFails ref = true := by unfold grammarFails; rw [hm]; rfl
    have hu : unknownBook lookup ref = false := by unfold unknownBook; rw [hm]
    have hc : chapterOutOfRange lookup ref = false := by
      unfold chapterOutOfRange; rw [hm]
    have hv : badVerseRange ref = false := by unfold badVerseRange; rw [hm]
    have hp : parseReference lookup ref =
        .failure (str "Invalid reference format: \"" ++ ref ++
          str "\". Expected format: book.chapter.verse (e.g., gen.1.1 or jhn.3.16-17)") := by
      unfold parseReference; rw [hm]
    refine ⟨by rw [hp, hg, hu, hc, hv]; rfl, fun _ => ?_,
      by rw [hu]; simp, by rw [hc]; simp, by rw [hv]; simp⟩
    rw [hp]
    exact pfx_append_of _ _ _ (pfx_append_of _ _ _ (by decide))
  | some g =>
    obtain ⟨b, c, v, e?⟩ := g
    have hg : grammarFails ref = false := by unfold grammarFails; rw [hm]; rfl
    cases hl : lookup b with
    | none =>
      have hu : unknownBook lookup ref = true := by
        unfold unknownBook; rw [hm]; simp [hl]
      have hc : chapterOutOfRange lookup ref = false := by
        unfold chapterOutOfRange; rw [hm]; simp [hl]
      have hp : parseReference lookup ref =
          .failure (str "Unknown book: \"" ++ b ++
            str "\". Use standard abbreviations like gen, exo, mat, jhn, etc.") := by
        unfold parseReference; rw [hm]; simp only [hl]
      refine ⟨by rw [hp, hg, hu]; rfl, by rw [hg]; simp, fun _ => ?_,
        by rw [hc]; simp, by rw [hu]; simp⟩
      rw [hp]
      exact pfx_append_of _ _ _ (pfx_append_of _ _ _ (by decide))
    | some bk =>
      have hu : unknownBook lookup ref = false := by
        unfold unknownBook; rw [hm]; simp [hl]
      by_cases hcp : c < 1 ∨ bk.chapters < c
      · have hc : chapterOutOfRange lookup ref = true := by
          unfold chapterOutOfRange; rw [hm]; simp only [hl]
          rcases hcp with h | h <;> simp [h]
        have hp : parseReference lookup ref =
            .failure (str "Invalid chapter " ++ natChars c ++ str " for " ++
              bk.names.en ++ str ". Valid range: 1-" ++ natChars bk.chapters) := by
          unfold parseReference; rw [hm]; simp only [hl]; rw [if_pos hcp]
        refine ⟨by rw [hp, hg, hu, hc]; rfl, by rw [hg]; simp,
          by rw [hu]; simp, fun _ => ?_, by rw [hc]; simp⟩
        rw [hp]
        exact pfx_append_of _ _ _ (pfx_append_of _ _ _ (pfx_append_of _ _ _
          (pfx_append_of _ _ _ (pfx_append_of _ _ _ (by decide)))))
      · have hc : chapterOutOfRange lookup ref = false := by
          unfold chapterOutOfRange; rw [hm]; simp only [hl]
          push_neg at hcp
          simp [Nat.not_lt.mpr hcp.1, Nat.not_lt.mpr hcp.2]
        cases e? with
        | none =>
          have hv : badVerseRange ref = false := by unfold badVerseRange; rw [hm]
          have hp : parseReference lookup ref =
              .success ⟨bk.id, c, v, none⟩ bk := by
            unfold parseReference; rw [hm]; simp only [hl]; rw [if_neg hcp]
          exact ⟨by rw [hp, hg, hu, hc, hv]; rfl, by rw [hg]; simp,
            by rw [hu]; simp, by rw [hc]; simp, by rw [hv]; simp⟩
        | some e =>
          by_cases hev : e < v
          · have hv : badVerseRange ref = true := by
              unfold badVerseRange; rw [hm]; simp [hev]
            have hp : parseReference lookup ref =
                .failure (str "Invalid verse range: " ++ natChars v ++
                  str "-" ++ natChars e ++
                  str ". End verse must be >= start verse.") := by
              unfold parseReference; rw [hm]; simp only [hl]
              rw [if_neg hcp, if_pos hev]
            refine ⟨by rw [hp, hg, hu, hc, hv]; rfl, by rw [hg]; simp,
              by rw [hu]; simp, by rw [hc]; simp, fun _ _ _ => ?_⟩
            rw [hp]
            exact ifx_append_left _ _ _ (by decide)
          · have hv : badVerseRange ref = false := by
              unfold badVerseRange; rw [hm]; simp [hev]
            have hp : parseReference lookup ref =
                .success ⟨bk.id, c, v, some e⟩ bk := by
              unfold parseReference; rw [hm]; simp only [hl]
              rw [if_neg hcp, if_neg hev]
            exact ⟨by rw [hp, hg, hu, hc, hv]; rfl, by rw [hg]; simp,
              by rw [hu]; simp, by rw [hc]; simp, by rw [hv]; simp⟩

/-- Witness for claim C1 at concrete inputs: one instance of each failure
mode and the failure equivalence at a well-formed reference. -/
theorem parseReference_failure_iff_witness :
    (str "Invalid reference format" <+:
      errorOf (parseReference demoCatalog (str "not a ref")))
    ∧ (str "Unknown book" <+:
        errorOf (parseReference demoCatalog (str "zzz.1.1")))
    ∧ (str "Invalid chapter" <+:
        errorOf (parseReference demoCatalog (str "gen.999.1")))
    ∧ (str "End verse must be >= start verse" <:+:
        errorOf (parseReference demoCatalog (str "gen.1.5-2")))
    ∧ isFailure (parseReference demoCatalog (str "gen.1.1")) =
        (grammarFails (str "gen.1.1") || unknownBook demoCatalog (str "gen.1.1") ||
          chapterOutOfRange demoCatalog (str "gen.1.1") ||
          badVerseRange (str "gen.1.1")) :=
  ⟨(parseReference_failure_iff demoCatalog (str "not a ref")).2.1 (by decide),
   (parseReference_failure_iff demoCatalog (str "zzz.1.1")).2.2.1 (by decide),
   (parseReference_failure_iff demoCatalog (str "gen.999.1")).2.2.2.1 (by decide),
   (parseReference_failure_iff demoCatalog (str "gen.1.5-2")).2.2.2.2
     (by decide) (by decide) (by decide),
   (parseReference_failure_iff demoCatalog (str "gen.1.1")).1⟩

/-- Counterexample to claim C2 as stated: `gen.1.5-2` has the grammar
shape `book.chapter.verse-verse`, its book token resolves in the catalog
and its chapter is in range, yet `parseReference` fails (the claim omits
the verse-range condition `verseEnd >= verseStart`). -/
theorem parse_roundtrip_counterexample :
    matchRef (trim (lower (str "gen.1.5-2"))) = some (str "gen", 1, 5, some 2)
    ∧ demoCatalog (str "gen") = some genBook
    ∧ 1 ≤ genBook.chapters
    ∧ isFailure (parseReference demoCatalog (str "gen.1.5-2")) = true := by
  decide

/-- Claim C2 (amended with the verse-range condition): a reference whose
normalized form matches the grammar, whose book token resolves, whose
chapter is in the book's range, and whose verse range (when present) is
non-decreasing parses successfully, and formatting the parsed reference
in English renders "Name chapter:verseStart", with "-verseEnd" appended
exactly when an end verse is present and different from the start. -/
theorem parse_format_roundtrip (lookup : Catalog) (ref tok : Str)
    (c v : Nat) (e? : Option Nat) (book : BookData)
    (hm : matchRef (trim (lower ref)) = some (tok, c, v, e?))
    (hb : lookup tok = some book)
    (h1 : 1 ≤ c) (h2 : c ≤ book.chapters)
    (hr : ∀ e, e? = some e → v ≤ e) :
    parseReference lookup ref = .success ⟨book.id, c, v, e?⟩ book
    ∧ formatReference ⟨book.id, c, v, e?⟩ book (str "en") =
        book.names.en ++ str " " ++ natChars c ++ str ":" ++ natChars v ++
          (match e? with
           | some e => if e = v then [] else str "-" ++ natChars e
           | none => []) := by
  have hcp : ¬(c < 1 ∨ book.chapters < c) := by omega
  have hlang : ¬((str "en") = (str "fr")) := by decide
  constructor
  · unfold parseReference
    rw [hm]
    simp only [hb]
    rw [if_neg hcp]
    cases e? with
    | none => rfl
    | some e =>
      have hev : ¬(e < v) := by have := hr e rfl; omega
      simp [hev]
  · unfold formatReference
    cases e? with
    | none => simp [hlang]
    | some e =>
      have hv : v ≤ e := hr e rfl
      by_cases he : e = v
      · subst he
        simp [hlang]
      · have hne : e ≠ 0 ∧ e ≠ v := ⟨by omega, he⟩
        simp [hne, he, hlang]

/-- Witness for claim C2: `GEN.3.7-9` parses against the sample catalog
and formats back to "Genesis 3:7-9". -/
theorem parse_format_roundtrip_witness :
    parseReference demoCatalog (str "GEN.3.7-9") =
      .success ⟨genBook.id, 3, 7, some 9⟩ genBook
    ∧ formatReference ⟨genBook.id, 3, 7, some 9⟩ genBook (str "en") =
        str "Genesis 3:7-9" := by
  have h := parse_format_roundtrip demoCatalog (str "GEN.3.7-9") (str "gen")
    3 7 (some 9) genBook (by decide) (by decide) (by decide) (by decide)
    (fun e he => by cases Option.some.inj he; decide)
  exact ⟨h.1, by rw [h.2]; decide⟩

/-- Lower-casing commutes with taking suffixes. -/
theorem lower_tails (t : Str) : (lower t).tails = t.tails.map lower := by
  induction t with
  | nil => simp [lower]
  | cons c t ih =>
    simp only [lower] at ih ⊢
    simp [List.tails_cons, ih, lower]

/-- The empty pattern matches some suffix of every text (namely the empty
one), so a trailing `%` always succeeds. -/
theorem tails_any_nil (t : Str) :
    t.tails.any (fun s => likeMatch [] s) = true := by
  induction t with
  | nil => simp [likeMatch]
  | cons c t ih => simp [List.tails_cons, ih]

/-- A wildcard-free literal followed by `%` matches a text exactly when
the lower-cased literal is a prefix of the lower-cased text. -/
theorem likeMatch_literal (lit : Str) (hw : noWildcards lit = true) :
    ∀ t : Str, likeMatch (lit ++ ['%']) t = (lower lit).isPrefixOf (lower t) := by
  induction lit with
  | nil =>
    intro t
    simp only [List.nil_append]
    show likeMatch ['%'] t = _
    simp [likeMatch, tails_any_nil, lower, List.isPrefixOf]
  | cons c lit ih =>
    intro t
    simp only [noWildcards, List.all_cons, Bool.and_eq_true, decide_eq_true_eq] at hw
    obtain ⟨⟨hc1, hc2⟩, hw'⟩ := hw
    have ih' := ih (by simpa [noWildcards] using hw')
    cases t with
    | nil => simp [likeMatch, hc1, lower, List.isPrefixOf]
    | cons d t' =>
      simp only [List.cons_append, likeMatch, if_neg hc1, if_neg hc2]
      simp [lower, List.isPrefixOf, ih' t']

/-- The search pattern `'%' ++ literal ++ '%'` of a wildcard-free literal
matches exactly the texts in which the literal occurs case-insensitively. -/
theorem likeMatch_pattern (lit : Str) (hw : noWildcards lit = true) (t : Str) :
    likeMatch ('%' :: (lit ++ ['%'])) t = occursCI lit t := by
  show (if '%' = '%' then t.tails.any (fun s => likeMatch (lit ++ ['%']) s)
    else _) = _
  rw [if_pos rfl]
  unfold occursCI
  rw [lower_tails, List.any_map]
  simp only [likeMatch_literal lit hw]
  rfl

/-- A one-verse store on which the `LIKE` wildcard behaviour of the
search query is observable. -/
def wildStore : List VerseRow := [⟨str "t1", 1, 1, 1, str "love"⟩]

/-- Counterexample to claim C3 as stated: the query `l_ve` selects the
verse `love` (the underscore acts as a `LIKE` single-character wildcard),
although `l_ve` does not occur in `love` as a case-insensitive literal
substring. -/
theorem searchVerses_wildcard_counterexample :
    (searchVerses wildStore (str "t1") (str "l_ve") 10 0).1 =
      [⟨str "t1", 1, 1, 1, str "love"⟩]
    ∧ occursCI (trim (str "l_ve")) (str "love") = false := by
  decide

/-- Claim C3 (amended): an empty or whitespace-only query returns the
empty page with total 0 and no error; and for a trimmed query free of the
`LIKE` wildcards `%` and `_` the rows selected (and counted) are exactly
the translation's verses whose text contains the trimmed query as a
case-insensitive literal substring.  (For queries containing `%` or `_`
the match follows SQLite `LIKE` pattern semantics instead, see the
counterexample.) -/
theorem searchVerses_literal_match (store : List VerseRow)
    (tid q : Str) (limit offset : Nat) :
    (trim q = [] → searchVerses store tid q limit offset = ([], 0))
    ∧ (trim q ≠ [] → noWildcards (trim q) = true →
        searchVerses store tid q limit offset =
          (((store.filter (fun r => r.translation_id == tid &&
              occursCI (trim q) r.text)).drop offset).take limit,
            (store.filter (fun r => r.translation_id == tid &&
              occursCI (trim q) r.text)).length)) := by
  constructor
  · intro h
    unfold searchVerses
    simp [h]
  · intro h hw
    have hfilter : store.filter (searchMatch tid (trim q)) =
        store.filter (fun r => r.translation_id == tid &&
          occursCI (trim q) r.text) := by
      apply List.filter_congr
      intro r _
      unfold searchMatch
      rw [likeMatch_pattern (trim q) hw]
    unfold searchVerses
    rw [if_neg (by simpa [List.isEmpty_iff] using h)]
    rw [hfilter]

/-- Witness for claim C3: the padded query " love " is trimmed and then
matched literally and case-insensitively. -/
theorem searchVerses_literal_match_witness :
    searchVerses wildStore (str "t1") (str " Love ") 10 0 =
      (((wildStore.filter (fun r => r.translation_id == str "t1" &&
          occursCI (trim (str " Love ")) r.text)).drop 0).take 10,
        (wildStore.filter (fun r => r.translation_id == str "t1" &&
          occursCI (trim (str " Love ")) r.text)).length) :=
  (searchVerses_literal_match wildStore (str "t1") (str " Love ") 10 0).2
    (by decide) (by decide)

/-- Claim C4: for a non-empty (after trimming) query the reported total
is the number of store rows satisfying the very predicate of the page
query, independently of limit and offset. -/
theorem searchVerses_total_stable (store : List VerseRow) (tid q : Str)
    (l o l' o' : Nat) (h : trim q ≠ []) :
    (searchVerses store tid q l o).2 =
      (store.filter (searchMatch tid (trim q))).length
    ∧ (searchVerses store tid q l o).2 = (searchVerses store tid q l' o').2 := by
  unfold searchVerses
  rw [if_neg (by simpa [List.isEmpty_iff] using h)]
  exact ⟨rfl, by rw [if_neg (by simpa [List.isEmpty_iff] using h)]⟩

/-- Witness for claim C4: the total for query "love" on the sample store
equals the full match count for every page shape. -/
theorem searchVerses_total_stable_witness :
    (searchVerses wildStore (str "t1") (str "love") 1 0).2 =
      (wildStore.filter (searchMatch (str "t1") (trim (str "love")))).length
    ∧ (searchVerses wildStore (str "t1") (str "love") 1 0).2 =
        (searchVerses wildStore (str "t1") (str "love") 5 3).2 :=
  searchVerses_total_stable wildStore (str "t1") (str "love") 1 0 5 3
    (by decide)

/-- Escaping any query yields a regex pattern that is a pure literal
denoting the query itself: this is the sense in which arbitrary user
input (for example `.*`) is matched literally, not as a pattern. -/
theorem regexLiteral_escapeRegex :
    ∀ q : Str, regexLiteral? (escapeRegex q) = some q := by
  intro q
  induction q with
  | nil => rfl
  | cons c q ih =>
    by_cases hc : isRegexMeta c = true
    · have h1 : escapeRegex (c :: q) = '\\' :: c :: escapeRegex q := by
        simp [escapeRegex, hc]
      rw [h1]
      rw [regexLiteral?.eq_def]
      simp [hc, ih]
    · have hne : ¬(c = '\\') := by
        intro h
        subst h
        simp [isRegexMeta] at hc
      have h1 : escapeRegex (c :: q) = c :: escapeRegex q := by
        simp [escapeRegex, hc]
      rw [h1]
      rw [regexLiteral?.eq_def]
      simp [hne, hc, ih]

/-- The chunk scan of the empty text is empty at every fuel. -/
theorem hlChunksF_nil (qc : Char) (qr : Str) (fuel : Nat) :
    hlChunksF qc qr fuel [] = [] := by
  cases fuel <;> rfl

/-- Concatenating the chunks of the scan gives back the text: the
highlighter wraps occurrences without dropping or duplicating any
character. -/
theorem hlChunksF_join (qc : Char) (qr : Str) :
    ∀ (fuel : Nat) (t : Str), t.length ≤ fuel →
      ((hlChunksF qc qr fuel t).map Prod.snd).flatten = t := by
  intro fuel
  induction fuel with
  | zero =>
    intro t h
    cases t with
    | nil => simp [hlChunksF_nil]
    | cons c t' => simp at h
  | succ fuel ih =>
    intro t h
    cases t with
    | nil => simp [hlChunksF_nil]
    | cons c t' =>
      by_cases hp : ciStartsWith (qc :: qr) (c :: t') = true
      · have hb : ((c :: t').drop (qr.length + 1)).length ≤ fuel := by
          simp only [List.length_drop]
          simp at h ⊢
          omega
        simp only [hlChunksF, hp, if_true]
        simp only [List.map_cons, List.flatten_cons, ih _ hb]
        exact List.take_append_drop _ _
      · have hb : t'.length ≤ fuel := by simp at h; omega
        simp only [hlChunksF, hp, if_false, Bool.false_eq_true]
        simp [ih _ hb]

/-- Every matched chunk of the scan is, up to case, the query itself. -/
theorem hlChunksF_matched (qc : Char) (qr : Str) :
    ∀ (fuel : Nat) (t : Str), t.length ≤ fuel →
      ∀ p ∈ hlChunksF qc qr fuel t, p.1 = true → lower p.2 = lower (qc :: qr) := by
  intro fuel
  induction fuel with
  | zero =>
    intro t h p hp
    cases t with
    | nil => simp [hlChunksF_nil] at hp
    | cons c t' => simp at h
  | succ fuel ih =>
    intro t h p hp htrue
    cases t with
    | nil => simp [hlChunksF_nil] at hp
    | cons c t' =>
      by_cases hm : ciStartsWith (qc :: qr) (c :: t') = true
      · simp only [hlChunksF, hm, if_true] at hp
        rcases List.mem_cons.mp hp with hhead | hrest
        · subst hhead
          have hpref : lower (qc :: qr) <+: lower (c :: t') :=
            List.isPrefixOf_iff_prefix.mp hm
          have hlen : (lower (qc :: qr)).length = qr.length + 1 := by
            simp [lower]
          have heq := List.prefix_iff_eq_take.mp hpref
          rw [hlen] at heq
          show lower ((c :: t').take (qr.length + 1)) = lower (qc :: qr)
          rw [heq]
          simp [lower, List.map_take]
        · have hb : ((c :: t').drop (qr.length + 1)).length ≤ fuel := by
            simp only [List.length_drop]
            simp at h ⊢
            omega
          exact ih _ hb p hrest htrue
      · simp only [hlChunksF, hm, if_false, Bool.false_eq_true] at hp
        rcases List.mem_cons.mp hp with hhead | hrest
        · subst hhead
          simp at htrue
        · have hb : t'.length ≤ fuel := by simp at h; omega
          exact ih _ hb p hrest htrue

/-- A non-empty query does not occur in the empty text. -/
theorem occursCI_nil (qc : Char) (qr : Str) :
    occursCI (qc :: qr) [] = false := by
  simp [occursCI, lower, List.isPrefixOf]

/-- An anchored case-insensitive match is in particular an occurrence. -/
theorem occursCI_of_starts (q t : Str) (h : ciStartsWith q t = true) :
    occursCI q t = true := by
  unfold occursCI
  rw [List.any_eq_true]
  exact ⟨lower t, by simp [List.mem_tails], h⟩

/-- An occurrence in a suffix obtained by `drop` is an occurrence. -/
theorem occursCI_of_drop (q t : Str) (k : Nat)
    (h : occursCI q (t.drop k) = true) : occursCI q t = true := by
  unfold occursCI at h ⊢
  rw [List.any_eq_true] at h ⊢
  obtain ⟨s, hs, hpref⟩ := h
  refine ⟨s, ?_, hpref⟩
  rw [List.mem_tails] at hs ⊢
  have : lower (t.drop k) = (lower t).drop k := by simp [lower, List.map_drop]
  rw [this] at hs
  exact hs.trans (List.drop_suffix k (lower t))

/-- An occurrence in a non-empty text either starts at the head or lies
in the tail. -/
theorem occursCI_cons_split (qc : Char) (qr : Str) (c : Char) (t' : Str)
    (h : occursCI (qc :: qr) (c :: t') = true) :
    ciStartsWith (qc :: qr) (c :: t') = true ∨ occursCI (qc :: qr) t' = true := by
  unfold occursCI at h
  simp only [lower, List.map_cons, List.tails_cons, List.any_cons] at h
  rcases Bool.or_eq_true_iff.mp h with h1 | h2
  · exact Or.inl (by simpa [ciStartsWith, lower] using h1)
  · exact Or.inr (by simpa [occursCI, lower] using h2)

/-- When the query occurs in the text, the scan yields a matched chunk. -/
theorem hlChunksF_exists_of_occurs (qc : Char) (qr : Str) :
    ∀ (fuel : Nat) (t : Str), t.length ≤ fuel →
      occursCI (qc :: qr) t = true →
      ∃ p ∈ hlChunksF qc qr fuel t, p.1 = true := by
  intro fuel
  induction fuel with
  | zero =>
    intro t h hocc
    cases t with
    | nil => rw [occursCI_nil] at hocc; cases hocc
    | cons c t' => simp at h
  | succ fuel ih =>
    intro t h hocc
    cases t with
    | nil => rw [occursCI_nil] at hocc; cases hocc
    | cons c t' =>
      by_cases hm : ciStartsWith (qc :: qr) (c :: t') = true
      · refine ⟨(true, (c :: t').take (qr.length + 1)), ?_, rfl⟩
        simp [hlChunksF, hm]
      · rcases occursCI_cons_split qc qr c t' hocc with h1 | h2
        · exact absurd h1 hm
        · have hb : t'.length ≤ fuel := by simp at h; omega
          obtain ⟨p, hp, htrue⟩ := ih t' hb h2
          refine ⟨p, ?_, htrue⟩
          simp [hlChunksF, hm]
          exact Or.inr hp

/-- When the scan yields a matched chunk, the query occurs in the text. -/
theorem hlChunksF_occurs_of_exists (qc : Char) (qr : Str) :
    ∀ (fuel : Nat) (t : Str), t.length ≤ fuel →
      (∃ p ∈ hlChunksF qc qr fuel t, p.1 = true) →
      occursCI (qc :: qr) t = true := by
  intro fuel
  induction fuel with
  | zero =>
    intro t h hex
    cases t with
    | nil => simp [hlChunksF_nil] at hex
    | cons c t' => simp at h
  | succ fuel ih =>
    intro t h hex
    cases t with
    | nil => simp [hlChunksF_nil] at hex
    | cons c t' =>
      by_cases hm : ciStartsWith (qc :: qr) (c :: t') = true
      · exact occursCI_of_starts _ _ hm
      · obtain ⟨p, hp, htrue⟩ := hex
        simp only [hlChunksF, hm, if_false, Bool.false_eq_true] at hp
        rcases List.mem_cons.mp hp with hhead | hrest
        · subst hhead
          simp at htrue
        · have hb : t'.length ≤ fuel := by simp at h; omega
          have := ih t' hb ⟨p, hrest, htrue⟩
          exact occursCI_of_drop _ _ 1 (by simpa using this)

/-- Rendering a chunk list with a matched chunk produces an `<em>`
wrapper. -/
theorem renderChunks_em :
    ∀ chunks : List (Bool × Str), (∃ p ∈ chunks, p.1 = true) →
      str "<em>" <:+: renderChunks chunks := by
  intro chunks
  induction chunks with
  | nil => rintro ⟨p, hp, _⟩; simp at hp
  | cons hd rest ih =>
    rintro ⟨p, hp, htrue⟩
    obtain ⟨b, s⟩ := hd
    cases b with
    | true =>
      show str "<em>" <:+: str "<em>" ++ s ++ str "</em>" ++ renderChunks rest
      exact (pfx_append_of _ _ _ (pfx_append_of _ _ _
        (List.prefix_append _ _))).isInfix
    | false =>
      rcases List.mem_cons.mp hp with hhead | hrest
      · subst hhead
        simp at htrue
      · show str "<em>" <:+: s ++ renderChunks rest
        exact ifx_append_left _ _ _ (ih ⟨p, hrest, htrue⟩)

/-- Rendering a chunk list with no matched chunk is plain
concatenation. -/
theorem renderChunks_plain :
    ∀ chunks : List (Bool × Str), (∀ p ∈ chunks, p.1 = false) →
      renderChunks chunks = (chunks.map Prod.snd).flatten := by
  intro chunks
  induction chunks with
  | nil => intro _; rfl
  | cons hd rest ih =>
    intro h
    obtain ⟨b, s⟩ := hd
    cases b with
    | true => exact absurd (h (true, s) (List.mem_cons_self _ _)) (by simp)
    | false =>
      show s ++ renderChunks rest = _
      rw [ih (fun p hp => h p (List.mem_cons_of_mem _ hp))]
      simp

/-- Claim C5: the query is escaped into a pattern matching it literally
(`regexLiteral?`); the highlighted text is the original text with chunks
wrapped and nothing else changed; every wrapped chunk is a
case-insensitive copy of the query; a chunk is wrapped exactly when the
query occurs case-insensitively; in particular the highlight carries an
`<em>` wrapper whenever the query occurs, and is the unchanged text when
it does not. -/
theorem highlightMatches_correct (text : Str) (qc : Char) (qr : Str) :
    regexLiteral? (escapeRegex (qc :: qr)) = some (qc :: qr)
    ∧ ((hlChunks qc qr text).map Prod.snd).flatten = text
    ∧ (∀ p ∈ hlChunks qc qr text, p.1 = true → lower p.2 = lower (qc :: qr))
    ∧ (occursCI (qc :: qr) text = true ↔
        ∃ p ∈ hlChunks qc qr text, p.1 = true)
    ∧ (occursCI (qc :: qr) text = true →
        str "<em>" <:+: highlightMatches text (qc :: qr))
    ∧ (occursCI (qc :: qr) text = false →
        highlightMatches text (qc :: qr) = text) := by
  have hrw : highlightMatches text (qc :: qr) =
      renderChunks (hlChunks qc qr text) := by
    unfold highlightMatches
    rw [regexLiteral_escapeRegex]
  refine ⟨regexLiteral_escapeRegex _,
    hlChunksF_join qc qr text.length text le_rfl,
    hlChunksF_matched qc qr text.length text le_rfl,
    ⟨hlChunksF_exists_of_occurs qc qr text.length text le_rfl,
      hlChunksF_occurs_of_exists qc qr text.length text le_rfl⟩,
    ?_, ?_⟩
  · intro hocc
    rw [hrw]
    exact renderChunks_em _
      (hlChunksF_exists_of_occurs qc qr text.length text le_rfl hocc)
  · intro hocc
    rw [hrw]
    have hall : ∀ p ∈ hlChunks qc qr text, p.1 = false := by
      intro p hp
      by_contra hne
      have htrue : p.1 = true := by
        cases hb : p.1
        · exact absurd hb hne
        · rfl
      have := hlChunksF_occurs_of_exists qc qr text.length text le_rfl
        ⟨p, hp, htrue⟩
      rw [hocc] at this
      cases this
    rw [renderChunks_plain _ hall]
    exact hlChunksF_join qc qr text.length text le_rfl

/-- Witness for claim C5 at concrete inputs: the escaped query `lord` is
the literal pattern `lord`; it occurs case-insensitively in
"Love the LORD" and the highlight carries an `<em>` wrapper there; it
does not occur in "xyz" and that text is returned unchanged. -/
theorem highlightMatches_correct_witness :
    regexLiteral? (escapeRegex ('l' :: str "ord")) = some ('l' :: str "ord")
    ∧ str "<em>" <:+: highlightMatches (str "Love the LORD") ('l' :: str "ord")
    ∧ highlightMatches (str "xyz") ('l' :: str "ord") = str "xyz" :=
  ⟨(highlightMatches_correct (str "Love the LORD") 'l' (str "ord")).1,
   (highlightMatches_correct (str "Love the LORD") 'l' (str "ord")).2.2.2.2.1
     (by decide),
   (highlightMatches_correct (str "xyz") 'l' (str "ord")).2.2.2.2.2
     (by decide)⟩

/-- The batch loop surfaces the first failure, in input order. -/
theorem collectVerses_first_error (env : Env) (tid language : Str) :
    ∀ (rs : List ParsedRefResult) (i : Nat) (e : Str),
      i < rs.length →
      (∀ j, j < i → isFailure (rs.getD j (.failure [])) = false) →
      rs.getD i (.failure []) = .failure e →
      collectVerses env tid language rs = .error e := by
  intro rs
  induction rs with
  | nil => intro i e hi _ _; simp at hi
  | cons r rest ih =>
    intro i e hi hpre hfail
    cases i with
    | zero =>
      rw [List.getD_cons_zero] at hfail
      subst hfail
      rfl
    | succ i =>
      have h0 : isFailure r = false := by
        have := hpre 0 (Nat.succ_pos i)
        simpa [List.getD_cons_zero] using this
      cases r with
      | failure e' => simp [isFailure] at h0
      | success a b =>
        have hrec := ih i e (by simpa using hi)
          (fun j hj => by
            have := hpre (j + 1) (by omega)
            simpa [List.getD_cons_succ] using this)
          (by simpa [List.getD_cons_succ] using hfail)
        show collectVerses env tid language (.success a b :: rest) = .error e
        simp [collectVerses, hrec]

/-- When every reference parses, the batch loop returns exactly the
entries of the references whose verse is present, in input order. -/
theorem collectVerses_ok (env : Env) (tid language : Str) :
    ∀ rs : List ParsedRefResult, (∀ r ∈ rs, isFailure r = false) →
      collectVerses env tid language rs = .ok (rs.filterMap (fun pr =>
        match pr with
        | .success r b => entryOfParsed env tid language r b
        | .failure _ => none)) := by
  intro rs
  induction rs with
  | nil => intro _; rfl
  | cons r rest ih =>
    intro h
    have h0 := h r (List.mem_cons_self _ _)
    cases r with
    | failure e => simp [isFailure] at h0
    | success a b =>
      have hrec := ih (fun x hx => h x (List.mem_cons_of_mem _ hx))
      show collectVerses env tid language (.success a b :: rest) = _
      cases he : entryOfParsed env tid language a b with
      | none => simp [collectVerses, hrec, List.filterMap_cons, he]
      | some entry => simp [collectVerses, hrec, List.filterMap_cons, he]

/-- Indexing a parsed batch: the i-th result is the parse of the trimmed
i-th segment. -/
theorem parseMultiple_getD (lookup : Catalog) :
    ∀ (segs : List Str) (i : Nat), i < segs.length →
      ((segs.map trim).map (parseReference lookup)).getD i (.failure []) =
        parseReference lookup (trim (segs.getD i [])) := by
  intro segs
  induction segs with
  | nil => intro i hi; simp at hi
  | cons s rest ih =>
    intro i hi
    cases i with
    | zero => simp [List.getD_cons_zero]
    | succ i => simpa [List.getD_cons_succ] using ih i (by simpa using hi)

/-- Claim C6: the batch parser yields one result per comma-separated
segment, each the independent parse of its trimmed segment, in input
order; and the batch route fails with 400 `INVALID_REFERENCE` carrying
the error of the first malformed segment. -/
theorem multipleReferences_batch (lookup : Catalog) (refs : Str)
    (env : Env) (langParam translationParam : Option Str)
    (translation : TranslationMeta)
    (hres : resolveTranslation env translationParam
      (langParam.getD DEFAULT_LANGUAGE) = some translation) :
    (parseMultipleReferences lookup refs).length = (splitOnC ',' refs).length
    ∧ (∀ i, i < (splitOnC ',' refs).length →
        (parseMultipleReferences lookup refs).getD i (.failure []) =
          parseReference lookup (trim ((splitOnC ',' refs).getD i [])))
    ∧ (∀ i e, i < (parseMultipleReferences lookup refs).length →
        (∀ j, j < i →
          isFailure ((parseMultipleReferences lookup refs).getD j
            (.failure [])) = false) →
        (parseMultipleReferences lookup refs).getD i (.failure []) =
          .failure e →
        getMultipleVerses env lookup refs langParam translationParam =
          .err 400 (str "INVALID_REFERENCE") e) := by
  refine ⟨by simp [parseMultipleReferences], ?_, ?_⟩
  · intro i hi
    exact parseMultiple_getD lookup (splitOnC ',' refs) i hi
  · intro i e hi hpre hfail
    unfold getMultipleVerses
    simp only [hres]
    rw [collectVerses_first_error env translation.id
      (langParam.getD DEFAULT_LANGUAGE) _ i e hi hpre hfail]

/-- Witness for claim C6: in the batch `jhn.3.16,zzz.1.1` the second
segment's parse error aborts the whole batch with 400
`INVALID_REFERENCE`. -/
theorem multipleReferences_batch_witness :
    getMultipleVerses demoEnv demoCatalog (str "jhn.3.16,zzz.1.1") none none =
      .err 400 (str "INVALID_REFERENCE")
        (errorOf (parseReference demoCatalog (str "zzz.1.1"))) :=
  (multipleReferences_batch demoCatalog (str "jhn.3.16,zzz.1.1") demoEnv
    none none
    (rowToMeta ⟨str "en-kjv", str "King James Version", str "en",
      str "Complete", str "EnglishKJBible.xml"⟩)
    (by decide)).2.2 1
    (errorOf (parseReference demoCatalog (str "zzz.1.1")))
    (by decide)
    (fun j hj => by
      have hj0 : j = 0 := by omega
      subst hj0
      decide)
    (by decide)

/-- Claim C10: when every reference of the batch parses, the route
answers 200 with exactly the entries of the references whose verse exists
in the store — a parsed reference whose verse is absent is silently
skipped, so the response may hold fewer entries than there are
segments. -/
theorem getMultipleVerses_missing_skipped (env : Env) (lookup : Catalog)
    (refs : Str) (langParam translationParam : Option Str)
    (translation : TranslationMeta)
    (hres : resolveTranslation env translationParam
      (langParam.getD DEFAULT_LANGUAGE) = some translation)
    (hall : ∀ r ∈ parseMultipleReferences lookup refs, isFailure r = false) :
    getMultipleVerses env lookup refs langParam translationParam =
      .ok ⟨translation.id, langParam.getD DEFAULT_LANGUAGE,
        (parseMultipleReferences lookup refs).filterMap (fun pr =>
          match pr with
          | .success r b => entryOfParsed env translation.id
              (langParam.getD DEFAULT_LANGUAGE) r b
          | .failure _ => none)⟩
    ∧ ((parseMultipleReferences lookup refs).filterMap (fun pr =>
          match pr with
          | .success r b => entryOfParsed env translation.id
              (langParam.getD DEFAULT_LANGUAGE) r b
          | .failure _ => none)).length ≤ (splitOnC ',' refs).length := by
  constructor
  · unfold getMultipleVerses
    simp only [hres]
    rw [collectVerses_ok env translation.id
      (langParam.getD DEFAULT_LANGUAGE) _ hall]
  · calc ((parseMultipleReferences lookup refs).filterMap _).length
        ≤ (parseMultipleReferences lookup refs).length :=
          List.length_filterMap_le _ _
      _ = (splitOnC ',' refs).length := by simp [parseMultipleReferences]

/-- Witness for claim C10: of the two well-formed references
`jhn.3.16,jhn.3.99` only the first has a verse in the sample store; the
response is 200 with exactly that one entry. -/
theorem getMultipleVerses_missing_skipped_witness :
    getMultipleVerses demoEnv demoCatalog (str "jhn.3.16,jhn.3.99") none none =
      .ok ⟨str "en-kjv", str "en",
        [⟨str "John 3:16", str "John", 3, 16,
          str "For God so loved the world"⟩]⟩ := by
  have h := (getMultipleVerses_missing_skipped demoEnv demoCatalog
    (str "jhn.3.16,jhn.3.99") none none
    (rowToMeta ⟨str "en-kjv", str "King James Version", str "en",
      str "Complete", str "EnglishKJBible.xml"⟩)
    (by decide) (by decide)).1
  rw [h]
  decide

/-- Claim C7: for a valid reference the comparison route resolves each
requested translation id (or language code) independently and collects
only the resolvable entries that have the verse — the others are omitted
by the `filterMap`, never failing the request; and with neither a truthy
`translations` nor a truthy `languages` parameter it answers 400
`MISSING_PARAMETER`. -/
theorem compareVerse_skips (env : Env) (lookup : Catalog) (ref : Str)
    (p : ParsedReference) (b : BookData) (tp lp : Option Str)
    (hp : parseReference lookup ref = .success p b) :
    (truthy tp = true →
      compareVerse env lookup ref tp lp =
        .ok ⟨formatReference p b (str "en"), b.id, p.chapter, p.verseStart,
          ((splitOnC ',' (tp.getD [])).map trim).filterMap
            (compareByTranslation env p b)⟩)
    ∧ (truthy tp = false → truthy lp = true →
        compareVerse env lookup ref tp lp =
          .ok ⟨formatReference p b (str "en"), b.id, p.chapter, p.verseStart,
            ((splitOnC ',' (lp.getD [])).map trim).filterMap
              (compareByLanguage env p b)⟩)
    ∧ (truthy tp = false → truthy lp = false →
        compareVerse env lookup ref tp lp =
          .err 400 (str "MISSING_PARAMETER")
            (str "Either translations or languages query parameter is required")) := by
  refine ⟨fun ht => ?_, fun ht hl => ?_, fun ht hl => ?_⟩
  · unfold compareVerse
    rw [hp]
    simp [ht]
  · unfold compareVerse
    rw [hp]
    simp [ht, hl]
  · unfold compareVerse
    rw [hp]
    simp [ht, hl]

/-- Witness for claim C7: requesting `translations=en-kjv,nonexistent`
for `jhn.3.16` yields 200 with exactly one comparison entry, and
supplying neither parameter yields 400 `MISSING_PARAMETER`. -/
theorem compareVerse_skips_witness :
    compareVerse demoEnv demoCatalog (str "jhn.3.16")
      (some (str "en-kjv,nonexistent")) none =
      .ok ⟨str "John 3:16", str "jhn", 3, 16,
        [⟨str "en", str "en", str "en-kjv", str "King James Version",
          str "John", str "For God so loved the world"⟩]⟩
    ∧ compareVerse demoEnv demoCatalog (str "jhn.3.16") none none =
      .err 400 (str "MISSING_PARAMETER")
        (str "Either translations or languages query parameter is required") := by
  constructor
  · have h := (compareVerse_skips demoEnv demoCatalog (str "jhn.3.16")
      ⟨str "jhn", 3, 16, none⟩ jhnBook (some (str "en-kjv,nonexistent")) none
      (by decide)).1 (by decide)
    rw [h]
    decide
  · exact (compareVerse_skips demoEnv demoCatalog (str "jhn.3.16")
      ⟨str "jhn", 3, 16, none⟩ jhnBook none none
      (by decide)).2.2 (by decide) (by decide)

/-- The page returned by `searchVerses` never exceeds the limit. -/
theorem searchVerses_page_le (store : List VerseRow) (tid q : Str)
    (limit offset : Nat) :
    (searchVerses store tid q limit offset).1.length ≤ limit := by
  unfold searchVerses
  by_cases h : (trim q).isEmpty
  · simp [h]
  · simp only [h, if_false, Bool.false_eq_true]
    exact List.length_take_le _ _

/-- Claim C8: an omitted limit defaults to 10 and an omitted offset to 0;
a supplied limit parsing above 100 is clamped to 100; and every 200
response of the search route carries at most `limit` results. -/
theorem searchRoute_pagination :
    (searchLimit none = some 10 ∧ searchOffset none = some 0)
    ∧ (∀ (s : Str) (n : Int), jsParseInt s = some n → 100 < n →
        searchLimit (some s) = some 100)
    ∧ (∀ (env : Env) (q : Str) (lp tp ls os : Option Str) (body : SearchBody),
        searchRoute env q lp tp ls os = some (.ok body) →
        (body.results.length : Int) ≤ body.limit) := by
  refine ⟨⟨rfl, rfl⟩, fun s n hp hn => ?_, fun env q lp tp ls os body h => ?_⟩
  · cases s with
    | nil =>
      rw [show jsParseInt [] = none from rfl] at hp
      cases hp
    | cons c s' =>
      show (jsParseInt (c :: s')).map (fun m => min m 100) = some 100
      rw [hp]
      show some (min n 100) = some 100
      have hmin : min n 100 = 100 := by omega
      rw [hmin]
  · unfold searchRoute at h
    cases hL : searchLimit ls with
    | none => rw [hL] at h; simp at h
    | some l =>
      cases hO : searchOffset os with
      | none => rw [hL, hO] at h; simp at h
      | some o =>
        simp only [hL, hO] at h
        by_cases hlo : 0 ≤ l ∧ 0 ≤ o
        · rw [if_pos hlo] at h
          cases hr : resolveTranslation env tp (lp.getD DEFAULT_LANGUAGE) with
          | none => simp [hr] at h
          | some translation =>
            simp only [hr, Option.some.injEq] at h
            have hb := SearchOutcome.ok.inj h
            subst hb
            simp only [List.length_map]
            have h1 : (searchVerses env.verses translation.id q
                l.toNat o.toNat).1.length ≤ l.toNat :=
              searchVerses_page_le _ _ _ _ _
            have h2 : ((l.toNat : Int)) = l := Int.toNat_of_nonneg hlo.1
            calc ((searchVerses env.verses translation.id q
                l.toNat o.toNat).1.length : Int)
                ≤ (l.toNat : Int) := by exact_mod_cast h1
              _ = l := h2
        · rw [if_neg hlo] at h
          cases h

/-- The concrete 200 response body used in the claim C8 witness. -/
def demoSearchBody : SearchBody :=
  ⟨str "God", str "en-kjv", str "en", 1, 1, 0,
    [⟨str "John 3:16", str "For God so loved the world",
      str "For <em>God</em> so loved the world"⟩]⟩

/-- Witness for claim C8: defaults 10 and 0, a limit of 200 clamped to
100, and a concrete 200 response whose single result respects its
limit. -/
theorem searchRoute_pagination_witness :
    searchLimit none = some 10 ∧ searchOffset none = some 0
    ∧ searchLimit (some (str "200")) = some 100
    ∧ searchRoute demoEnv (str "God") none none (some (str "1")) none =
        some (.ok demoSearchBody)
    ∧ ((demoSearchBody.results.length : Int) ≤ demoSearchBody.limit) :=
  ⟨searchRoute_pagination.1.1, searchRoute_pagination.1.2,
   searchRoute_pagination.2.1 (str "200") 200 (by decide) (by decide),
   by decide,
   searchRoute_pagination.2.2 demoEnv (str "God") none none
     (some (str "1")) none demoSearchBody (by decide)⟩

/-- The byte order on strings is total. -/
theorem leStr_total : ∀ a b : Str, leStr a b = true ∨ leStr b a = true := by
  intro a
  induction a with
  | nil => intro b; exact Or.inl rfl
  | cons x as ih =>
    intro b
    cases b with
    | nil => exact Or.inr rfl
    | cons y bs =>
      rcases lt_trichotomy x y with h | h | h
      · left; simp [leStr, h]
      · subst h
        rcases ih bs with h' | h'
        · left; simp [leStr, lt_irrefl, h']
        · right; simp [leStr, lt_irrefl, h']
      · right; simp [leStr, h]

/-- The byte order on strings is transitive. -/
theorem leStr_trans : ∀ a b c : Str,
    leStr a b = true → leStr b c = true → leStr a c = true := by
  intro a
  induction a with
  | nil => intro b c _ _; rfl
  | cons x as ih =>
    intro b c hab hbc
    cases b with
    | nil => simp [leStr] at hab
    | cons y bs =>
      cases c with
      | nil => simp [leStr] at hbc
      | cons z cs =>
        rcases lt_trichotomy x y with h1 | h1 | h1
        · rcases lt_trichotomy y z with h2 | h2 | h2
          · simp [leStr, lt_trans h1 h2]
          · subst h2; simp [leStr, h1]
          · exfalso
            simp [leStr, lt_asymm h2, h2] at hbc
        · subst h1
          rcases lt_trichotomy x z with h2 | h2 | h2
          · simp [leStr, h2]
          · subst h2
            simp only [leStr, lt_irrefl, if_false] at hab hbc ⊢
            exact ih bs cs hab hbc
          · exfalso
            simp [leStr, lt_asymm h2, h2] at hbc
        · exfalso
          simp [leStr, lt_asymm h1, h1] at hab

instance : IsTotal TranslationRow nameLe :=
  ⟨fun a b => leStr_total a.name b.name⟩

instance : IsTrans TranslationRow nameLe :=
  ⟨fun a b c => leStr_trans a.name b.name c.name⟩

/-- Claim C9: `getDefaultTranslation` returns nothing exactly when the
language has no translations; otherwise it returns the curated default
(`en -> en-kjv`, `fr -> fr-lsg`) when a translation with that id is
present among the language's translations, else the first translation in
the store's name-sorted order — and the list it selects from is indeed
the language's rows sorted by name. -/
theorem getDefaultTranslation_policy (env : Env) (language : Str) :
    (getDefaultTranslation env language = none ↔
      env.translations.filter (fun r => r.language == language) = [])
    ∧ (∀ d t, curatedDefault language = some d →
        (getTranslationsByLanguage env language).find? (fun r => r.id == d) =
          some t →
        getDefaultTranslation env language = some (rowToMeta t))
    ∧ (∀ d, curatedDefault language = some d →
        (getTranslationsByLanguage env language).find? (fun r => r.id == d) =
          none →
        getDefaultTranslation env language =
          (getTranslationsByLanguage env language).head?.map rowToMeta)
    ∧ (curatedDefault language = none →
        getDefaultTranslation env language =
          (getTranslationsByLanguage env language).head?.map rowToMeta)
    ∧ (getTranslationsByLanguage env language).Perm
        (env.translations.filter (fun r => r.language == language))
    ∧ List.Sorted nameLe (getTranslationsByLanguage env language) := by
  have hperm : (getTranslationsByLanguage env language).Perm
      (env.translations.filter (fun r => r.language == language)) :=
    List.perm_insertionSort nameLe _
  refine ⟨?_, ?_, ?_, ?_, hperm, List.sorted_insertionSort nameLe _⟩
  · constructor
    · intro h
      unfold getDefaultTranslation at h
      by_cases he : (getTranslationsByLanguage env language).isEmpty
      · have : getTranslationsByLanguage env language = [] :=
          List.isEmpty_iff.mp he
        have hlen := hperm.length_eq
        rw [this] at hlen
        exact List.length_eq_zero.mp hlen.symm
      · exfalso
        simp only [he, if_false, Bool.false_eq_true] at h
        obtain ⟨r, rest, hne⟩ : ∃ r rest,
            getTranslationsByLanguage env language = r :: rest := by
          cases hx : getTranslationsByLanguage env language with
          | nil => rw [hx] at he; simp at he
          | cons r rest => exact ⟨r, rest, rfl⟩
        rw [hne] at h
        cases hcd : curatedDefault language with
        | none => simp [hcd] at h
        | some d =>
          rw [hcd] at h
          cases hf : (r :: rest).find? (fun t => t.id == d) with
          | none => simp [hf] at h
          | some found => simp [hf] at h
    · intro h
      unfold getDefaultTranslation
      have : getTranslationsByLanguage env language = [] := by
        have hlen := hperm.length_eq
        rw [h] at hlen
        exact List.length_eq_zero.mp hlen
      simp [this]
  · intro d t hcd hf
    unfold getDefaultTranslation
    have hne : ¬(getTranslationsByLanguage env language).isEmpty = true := by
      intro he
      rw [List.isEmpty_iff.mp he] at hf
      simp at hf
    simp only [hne, if_false, Bool.false_eq_true, hcd, hf]
  · intro d hcd hf
    unfold getDefaultTranslation
    by_cases he : (getTranslationsByLanguage env language).isEmpty
    · simp [he, List.isEmpty_iff.mp he]
    · simp only [he, if_false, Bool.false_eq_true, hcd, hf]
  · intro hcd
    unfold getDefaultTranslation
    by_cases he : (getTranslationsByLanguage env language).isEmpty
    · simp [he, List.isEmpty_iff.mp he]
    · simp only [he, if_false, Bool.false_eq_true, hcd]

/-- A store whose two English translations do not include the curated
default and whose insertion order differs from name order. -/
def altEnv : Env :=
  { translations :=
      [⟨str "en-web", str "World English Bible", str "en", str "Complete",
        str "EnglishWEBBible.xml"⟩,
       ⟨str "en-asv", str "American Standard Version", str "en",
        str "Complete", str "EnglishASVBible.xml"⟩]
    verses := []
    langNames := fun _ => none
    byNumber := fun _ => none }

/-- Witness for claim C9: with the curated default present it is chosen;
without it the head of the name-sorted order is chosen (the American
Standard Version, although the World English Bible was inserted first);
a language with no translations yields nothing. -/
theorem getDefaultTranslation_policy_witness :
    getDefaultTranslation demoEnv (str "en") =
      some (rowToMeta ⟨str "en-kjv", str "King James Version", str "en",
        str "Complete", str "EnglishKJBible.xml"⟩)
    ∧ getDefaultTranslation altEnv (str "en") =
        (getTranslationsByLanguage altEnv (str "en")).head?.map rowToMeta
    ∧ (getTranslationsByLanguage altEnv (str "en")).head?.map rowToMeta =
        some (rowToMeta ⟨str "en-asv", str "American Standard Version",
          str "en", str "Complete", str "EnglishASVBible.xml"⟩)
    ∧ getDefaultTranslation altEnv (str "de") = none :=
  ⟨(getDefaultTranslation_policy demoEnv (str "en")).2.1 (str "en-kjv")
     ⟨str "en-kjv", str "King James Version", str "en", str "Complete",
       str "EnglishKJBible.xml"⟩ (by decide) (by decide),
   (getDefaultTranslation_policy altEnv (str "en")).2.2.1 (str "en-kjv")
     (by decide) (by decide),
   by decide,
   (getDefaultTranslation_policy altEnv (str "de")).1.mpr (by decide)⟩
